import Mathlib

/-! Verification of the statement-accumulation and control-flow-lowering engine
of the nmigen module builder (nmigen/fhdl/dsl.py): the domain-assignment
interface, the If/Elif/Else and Case accumulators and their lowering into
selection (Switch) statements, and single-driver-per-domain conflict
detection.  The value/IR layer (nmigen/fhdl/ast.py) is outside the given
source and is modelled from the spec where noted.
-/

/-- Modelled from the spec: the value layer (nmigen/fhdl/ast.py is not part
of the given source).  A value is a signal (identified by a numeric id, with
a bit width), a constant with a width, the boolean OR-reduction of a value
(the is-nonzero test, one bit wide), or the LSB-first concatenation of a
list of values.  Structural (syntactic) equality of this inductive models
the ValueKey structural-equality key of the value layer. -/
inductive Value where
  | signal (id width : Nat)
  | const (val width : Nat)
  | bool (v : Value)
  | cat (vs : List Value)

mutual

/-- Modelled from the spec: the bit-width query of the value layer.  A
boolean reduction is one bit wide; a concatenation is as wide as the sum of
the widths of its parts. -/
def Value.len : Value → Nat
  | .signal _ w => w
  | .const _ w => w
  | .bool _ => 1
  | .cat vs => lenValues vs

/-- Total width of a list of concatenated values. -/
def lenValues : List Value → Nat
  | [] => 0
  | v :: vs => Value.len v + lenValues vs

end

mutual

/-- Boolean structural equality on values (the ValueKey comparison). -/
def Value.beq : Value → Value → Bool
  | .signal i w, .signal j u => i == j && w == u
  | .const v w, .const u x => v == u && w == x
  | .bool a, .bool b => Value.beq a b
  | .cat as, .cat bs => beqValues as bs
  | _, _ => false

/-- Pointwise structural equality on lists of values. -/
def beqValues : List Value → List Value → Bool
  | [], [] => true
  | a :: as, b :: bs => Value.beq a b && beqValues as bs
  | _, _ => false

end

mutual

theorem valueBeq_iff : ∀ a b : Value, Value.beq a b = true ↔ a = b
  | .signal _ _, .signal _ _ => by simp [Value.beq]
  | .signal _ _, .const _ _ => by simp [Value.beq]
  | .signal _ _, .bool _ => by simp [Value.beq]
  | .signal _ _, .cat _ => by simp [Value.beq]
  | .const _ _, .signal _ _ => by simp [Value.beq]
  | .const _ _, .const _ _ => by simp [Value.beq]
  | .const _ _, .bool _ => by simp [Value.beq]
  | .const _ _, .cat _ => by simp [Value.beq]
  | .bool _, .signal _ _ => by simp [Value.beq]
  | .bool _, .const _ _ => by simp [Value.beq]
  | .bool a, .bool b => by simp [Value.beq, valueBeq_iff a b]
  | .bool _, .cat _ => by simp [Value.beq]
  | .cat _, .signal _ _ => by simp [Value.beq]
  | .cat _, .const _ _ => by simp [Value.beq]
  | .cat _, .bool _ => by simp [Value.beq]
  | .cat as, .cat bs => by simp [Value.beq, beqValues_iff as bs]

theorem beqValues_iff : ∀ as bs : List Value, beqValues as bs = true ↔ as = bs
  | [], [] => by simp [beqValues]
  | [], _ :: _ => by simp [beqValues]
  | _ :: _, [] => by simp [beqValues]
  | a :: as, b :: bs => by
      simp [beqValues, valueBeq_iff a b, beqValues_iff as bs]

end

instance : DecidableEq Value := fun a b => decidable_of_iff _ (valueBeq_iff a b)

/-- Modelled from the spec: the statement IR of the value layer.  An
assignment carries the list of signals written on its left-hand side
(signal ids) and a right-hand value; a selection statement (Switch) carries
a test value and an insertion-ordered pattern-to-body map, a pattern being a
wildcard string modelled as a list of characters.  The constructor other
stands for any statement that is neither of these. -/
inductive Stmt where
  | assign (lhs : List Nat) (rhs : Value)
  | switch (test : Value) (cases : List (List Char × List Stmt))
  | other

mutual

/-- Boolean structural equality on statements. -/
def Stmt.beq : Stmt → Stmt → Bool
  | .assign l r, .assign l' r' => l == l' && Value.beq r r'
  | .switch t cs, .switch t' cs' => Value.beq t t' && beqCases cs cs'
  | .other, .other => true
  | _, _ => false

/-- Pointwise structural equality on statement lists. -/
def beqStmts : List Stmt → List Stmt → Bool
  | [], [] => true
  | a :: as, b :: bs => Stmt.beq a b && beqStmts as bs
  | _, _ => false

/-- Pointwise structural equality on pattern-case lists. -/
def beqCases : List (List Char × List Stmt) → List (List Char × List Stmt) → Bool
  | [], [] => true
  | x :: xs, y :: ys => x.1 == y.1 && beqStmts x.2 y.2 && beqCases xs ys
  | _, _ => false

end

mutual

theorem stmtBeq_iff : ∀ a b : Stmt, Stmt.beq a b = true ↔ a = b
  | .assign _ _, .assign _ _ => by simp [Stmt.beq, valueBeq_iff]
  | .assign _ _, .switch _ _ => by simp [Stmt.beq]
  | .assign _ _, .other => by simp [Stmt.beq]
  | .switch _ _, .assign _ _ => by simp [Stmt.beq]
  | .switch t cs, .switch t' cs' => by
      simp [Stmt.beq, valueBeq_iff, beqCases_iff cs cs']
  | .switch _ _, .other => by simp [Stmt.beq]
  | .other, .assign _ _ => by simp [Stmt.beq]
  | .other, .switch _ _ => by simp [Stmt.beq]
  | .other, .other => by simp [Stmt.beq]

theorem beqStmts_iff : ∀ as bs : List Stmt, beqStmts as bs = true ↔ as = bs
  | [], [] => by simp [beqStmts]
  | [], _ :: _ => by simp [beqStmts]
  | _ :: _, [] => by simp [beqStmts]
  | a :: as, b :: bs => by
      simp [beqStmts, stmtBeq_iff a b, beqStmts_iff as bs]

theorem beqCases_iff : ∀ xs ys : List (List Char × List Stmt),
    beqCases xs ys = true ↔ xs = ys
  | [], [] => by simp [beqCases]
  | [], _ :: _ => by simp [beqCases]
  | _ :: _, [] => by simp [beqCases]
  | x :: xs, y :: ys => by
      rcases x with ⟨p, b⟩
      rcases y with ⟨p', b'⟩
      simp [beqCases, beqStmts_iff b b', beqCases_iff xs ys, Prod.ext_iff]

end

instance : DecidableEq Stmt := fun a b => decidable_of_iff _ (stmtBeq_iff a b)

deriving instance DecidableEq for Except

/-- OrderedDict assignment: when the key is already present, replace its
value in place (the insertion position is kept); otherwise append the new
binding at the end. -/
def odInsert {α β : Type} [DecidableEq α] : List (α × β) → α → β → List (α × β)
  | [], k, v => [(k, v)]
  | p :: rest, k, v => if p.1 = k then (k, v) :: rest else p :: odInsert rest k v

/-- The state of a Module builder (Module.__init__ in dsl.py): the driver
map from signal id to owning domain name (none is the unclocked domain), the
statement list of the active scope, the current statement depth, the pending
If/Elif/Else chain (condition list and body list), and the pending case
chain (the structural key of its test and its insertion-ordered case map).
The submodule list is omitted: no claim concerns it. -/
structure ModuleState where
  driving : List (Nat × Option String)
  statements : List Stmt
  stmt_depth : Nat
  stmt_if_cond : List Value
  stmt_if_bodies : List (List Stmt)
  stmt_switch_test : Option Value
  stmt_switch_cases : List (List Char × List Stmt)
deriving DecidableEq

/-- A fresh module builder state. -/
def ModuleState.empty : ModuleState := ⟨[], [], 0, [], [], none, []⟩

/-- Python str.rjust with a fill character: pad on the left up to width w;
a string already at least w long is returned unchanged. -/
def rjust (s : List Char) (w : Nat) (fill : Char) : List Char :=
  List.replicate (w - s.length) fill ++ s

/-- Condition normalisation in Module._flush: a condition whose width is not
exactly one bit is replaced by its boolean OR-reduction (is-nonzero test);
a one-bit condition passes through unchanged. -/
def reduceCond (c : Value) : Value :=
  if c.len ≠ 1 then Value.bool c else c

/-- The lowering loop of Module._flush, over the zip of the condition list
(plus a trailing none for the else body) against the body list.  It carries
the running tests list and the OrderedDict of pattern cases; k is the length
of the pending condition list (the rjust width). -/
def ifLower (k : Nat) : List (Option Value × List Stmt) → List Value →
    List (List Char × List Stmt) → List Value × List (List Char × List Stmt)
  | [], tests, cases => (tests, cases)
  | (some c, body) :: rest, tests, cases =>
      let tests' := tests ++ [reduceCond c]
      let pat := rjust ('1' :: List.replicate (tests'.length - 1) '-') k '-'
      ifLower k rest tests' (odInsert cases pat body)
  | (none, body) :: rest, tests, cases =>
      ifLower k rest tests (odInsert cases (List.replicate tests.length '-') body)

/-- Module._flush: lower a pending If/Elif/Else chain into one Switch over
the concatenation of the reduced conditions, then a pending case chain into
one Switch over its test, append each lowered Switch to the active statement
list, and clear both pending states. -/
def ModuleState.flush (m : ModuleState) : ModuleState :=
  let m1 :=
    if m.stmt_if_cond.isEmpty then m
    else
      let r := ifLower m.stmt_if_cond.length
                 (List.zip (m.stmt_if_cond.map some ++ [none]) m.stmt_if_bodies) [] []
      { m with statements := m.statements ++ [Stmt.switch (Value.cat r.1) r.2] }
  let m2 :=
    match m1.stmt_switch_test with
    | none => m1
    | some t => { m1 with statements := m1.statements ++ [Stmt.switch t m1.stmt_switch_cases] }
  { m2 with stmt_if_cond := [], stmt_if_bodies := [], stmt_switch_test := none,
            stmt_switch_cases := [] }

/-- The cd_human_name helper of Module._add_statement: the unclocked domain
(none) is shown as comb, a named domain by its name. -/
def cdHumanName : Option String → String
  | none => "comb"
  | some s => s

/-- The driver-driver conflict message: it names the signal, the domain of
the offending assignment, and the domain already driving the signal. -/
def driverConflictMsg (signal : Nat) (cd_new cd_curr : Option String) : String :=
  "Driver-driver conflict: trying to drive signal " ++ toString signal ++
  " from d." ++ cdHumanName cd_new ++ ", but it is already driven from d." ++
  cdHumanName cd_curr

/-- The error message for a non-assignment statement routed through a domain
handle. -/
def onlyAssignsMsg (cd : Option String) : String :=
  "Only assignments may be appended to d." ++ cdHumanName cd

/-- The driver-map check loop of Module._add_statement for the left-hand
signals of one assignment: a signal absent from the driver map is recorded
with the incoming domain; a signal present with a different domain raises
the driver-driver conflict. -/
def checkSignals (cd : Option String) : List Nat → List (Nat × Option String) →
    Except String (List (Nat × Option String))
  | [], driving => .ok driving
  | s :: rest, driving =>
      match List.lookup s driving with
      | none => checkSignals cd rest (driving ++ [(s, cd)])
      | some cd_curr =>
          if cd_curr = cd then checkSignals cd rest driving
          else .error (driverConflictMsg s cd cd_curr)

/-- Processing of one statement in Module._add_statement: only assignments
may be appended; the driver map is checked and extended over the left-hand
signals, then the assignment is appended to the active statement list. -/
def processAssign (m : ModuleState) (cd : Option String) : Stmt → Except String ModuleState
  | Stmt.assign lhs rhs =>
      match checkSignals cd lhs m.driving with
      | .ok driving' =>
          .ok { m with driving := driving',
                       statements := m.statements ++ [Stmt.assign lhs rhs] }
      | .error e => .error e
  | _ => .error (onlyAssignsMsg cd)

/-- The statement loop of Module._add_statement over the wrapped statement
list, stopping at the first error. -/
def processAssigns (m : ModuleState) (cd : Option String) : List Stmt →
    Except String ModuleState
  | [] => .ok m
  | a :: rest =>
      match processAssign m cd a with
      | .ok m' => processAssigns m' cd rest
      | .error e => .error e

/-- Module._add_statement (with compat_mode at its default of false, the
only value used in the source): when the incoming depth is shallower than
the recorded depth the pending chains are flushed first; the depth is
recorded; then each statement is checked and appended. -/
def ModuleState.addStatement (m : ModuleState) (assigns : List Stmt)
    (cd : Option String) (depth : Nat) : Except String ModuleState :=
  processAssigns
    { (if depth < m.stmt_depth then m.flush else m) with stmt_depth := depth }
    cd assigns

/-- The per-scope state of a Case context manager (its pattern value after
defaulting, and the saved outer statement list). -/
structure CaseScope where
  value : List Char
  outer : List Stmt
deriving DecidableEq

/-- The width-mismatch message of a Case scope. -/
def caseWidthMsg (v : List Char) : String :=
  "Case value " ++ String.mk v ++ " must have the same width as the test"

/-- Entry of a Case scope (the enter method of the Case context manager):
an omitted pattern defaults to the all-wildcard pattern of the width of the
test; an explicit pattern whose length differs from the width of the test is
a syntax error; a test whose structural key differs from the pending one
flushes the pending chains first and starts a new case chain; the statement
list of the scope starts empty, the outer list is saved. -/
def ModuleState.caseEnter (m : ModuleState) (test : Value)
    (value : Option (List Char)) : Except String (ModuleState × CaseScope) :=
  let v := match value with
    | none => List.replicate test.len '-'
    | some v => v
  if test.len ≠ v.length then .error (caseWidthMsg v)
  else
    let m1 := if m.stmt_switch_test = some test then m
              else { m.flush with stmt_switch_test := some test }
    .ok ({ m1 with statements := [] }, ⟨v, m1.statements⟩)

/-- Exit of a Case scope: the accumulated body is recorded in the case map
under the pattern value of the scope (OrderedDict assignment), and the outer
statement list is restored. -/
def ModuleState.caseExit (m : ModuleState) (sc : CaseScope) : ModuleState :=
  { m with stmt_switch_cases := odInsert m.stmt_switch_cases sc.value m.statements,
           statements := sc.outer }

/-- Modelled from the spec: a Python value reaching the setattr hook of the
domain router, abstracted to the cases the hook distinguishes: an integer,
a domain handle (a _ModuleBuilderDomain, carrying a depth and a domain
name), a string, or any other object. -/
inductive PyValue where
  | int (n : Int)
  | domainHandle (depth : Nat) (cd_name : Option String)
  | str (s : String)
  | obj (desc : String)
deriving DecidableEq

/-- The attribute state of the domain router object: its only real slot is
the private depth field. -/
structure DomainsState where
  depth : PyValue
deriving DecidableEq

/-- The usage-error message for a direct assignment to a domain attribute. -/
def cannotAssignMsg (name : String) : String :=
  "Cannot assign the d." ++ name ++ " attribute; did you mean d." ++ name ++ " += instead"

/-- The setattr hook of the domain router (_ModuleBuilderDomains): the
private depth slot is stored; any other attribute raises the usage error
unless the assigned value is itself a domain handle, in which case the
assignment is silently ignored (this case is what the augmented-assignment
protocol produces, since appending through a handle re-assigns the handle). -/
def domainsSetattr (st : DomainsState) (name : String) (value : PyValue) :
    Except String DomainsState :=
  if name = "_depth" then .ok { st with depth := value }
  else match value with
    | PyValue.domainHandle _ _ => .ok st
    | _ => .error (cannotAssignMsg name)

/-- The getattr hook of the domain router: the attribute comb resolves to
the unclocked domain (none), any other name to that named domain. -/
def domainsGetattr (name : String) : Option String :=
  if name = "comb" then none else some name

/-- Spec-side pattern for branch i (0-based) of a chain of k conditions:
length k, all wildcards except a one at the position of condition i
(the leftmost character is the most significant bit). -/
def specPat (k i : Nat) : List Char :=
  List.replicate (k - 1 - i) '-' ++ '1' :: List.replicate i '-'

/-- Branch entries of a lowered chain starting at branch index start. -/
def branchEntries (k start : Nat) : List (List Stmt) → List (List Char × List Stmt)
  | [] => []
  | b :: rest => (specPat k start, b) :: branchEntries k (start + 1) rest

/-- Spec-side pattern map of a lowered If/Elif/Else chain: one entry per
branch in opening order, then, exactly when an else body is present (the
body list is longer than the condition list), the all-wildcard entry. -/
def specChainCases (k : Nat) (bodies : List (List Stmt)) : List (List Char × List Stmt) :=
  branchEntries k 0 (bodies.take k) ++
    (bodies.drop k).map (fun b => (List.replicate k '-', b))

theorem odInsert_append_of_not_mem {β : Type} (l : List (List Char × β))
    (k : List Char) (v : β) (h : ∀ p ∈ l, p.1 ≠ k) :
    odInsert l k v = l ++ [(k, v)] := by
  induction l with
  | nil => rfl
  | cons p rest ih =>
      have hp : p.1 ≠ k := h p (by simp)
      simp only [odInsert, if_neg hp, List.cons_append, List.cons.injEq, true_and]
      exact ih (fun q hq => h q (by simp [hq]))

theorem odInsert_replace {β : Type} (k : List Char) (v : β) :
    ∀ (pre : List (List Char × β)) (b : β) (post : List (List Char × β)),
    (∀ p ∈ pre, p.1 ≠ k) →
    odInsert (pre ++ (k, b) :: post) k v = pre ++ (k, v) :: post := by
  intro pre
  induction pre with
  | nil => intro b post _; simp [odInsert]
  | cons p rest ih =>
      intro b post h
      have hp : p.1 ≠ k := h p (by simp)
      simp only [List.cons_append, odInsert, if_neg hp, List.cons.injEq, true_and]
      exact ih b post (fun q hq => h q (by simp [hq]))

theorem lookup_append_of_some {β : Type} (s : Nat) (c : β) :
    ∀ (l l' : List (Nat × β)), List.lookup s l = some c →
    List.lookup s (l ++ l') = some c := by
  intro l
  induction l with
  | nil => intro l' h; simp [List.lookup] at h
  | cons p rest ih =>
      intro l' h
      rcases p with ⟨a, b⟩
      by_cases hs : s = a
      · subst hs; simp_all [List.lookup]
      · have hb : (s == a) = false := by simp [hs]
        simp only [List.lookup, hb] at h
        simpa [List.lookup, hb] using ih l' h

theorem lookup_append_of_none {β : Type} (s : Nat) :
    ∀ (l l' : List (Nat × β)), List.lookup s l = none →
    List.lookup s (l ++ l') = List.lookup s l' := by
  intro l
  induction l with
  | nil => intro l' _; simp
  | cons p rest ih =>
      intro l' h
      rcases p with ⟨a, b⟩
      by_cases hs : s = a
      · subst hs; simp_all [List.lookup]
      · have hb : (s == a) = false := by simp [hs]
        simp only [List.lookup, hb] at h
        simpa [List.lookup, hb] using ih l' h

theorem takeWhile_replicate_one (l : List Char) :
    ∀ a : Nat,
    (List.replicate a '-' ++ '1' :: l).takeWhile (fun c => c != '1') =
      List.replicate a '-' := by
  intro a
  induction a with
  | zero => simp [List.takeWhile]
  | succ n ih =>
      rw [List.replicate_succ]
      simp only [List.cons_append, List.takeWhile]
      have hc : ('-' != '1') = true := rfl
      simp only [hc]
      simp [ih]

theorem specPat_length (k i : Nat) (h : i < k) : (specPat k i).length = k := by
  simp only [specPat, List.length_append, List.length_replicate, List.length_cons]
  omega

theorem one_mem_specPat (k i : Nat) : '1' ∈ specPat k i := by
  simp [specPat]

theorem one_not_mem_replicate (n : Nat) : '1' ∉ List.replicate n '-' := by
  intro h
  have := List.eq_of_mem_replicate h
  simp at this

theorem specPat_inj {k i j : Nat} (hi : i < k) (hj : j < k)
    (h : specPat k i = specPat k j) : i = j := by
  have h1 := congrArg (fun l => (l.takeWhile (fun c => c != '1')).length) h
  simp only [specPat, takeWhile_replicate_one, List.length_replicate] at h1
  omega

theorem specPat_ne_replicate (k i : Nat) :
    specPat k i ≠ List.replicate k '-' := by
  intro h
  exact one_not_mem_replicate k (h ▸ one_mem_specPat k i)

theorem rjust_one (n k : Nat) :
    rjust ('1' :: List.replicate n '-') k '-' = specPat k n := by
  have h : k - (n + 1) = k - 1 - n := by omega
  simp only [rjust, specPat, List.length_cons, List.length_replicate, h]

theorem ifLower_append (k : Nat) :
    ∀ (l1 l2 : List (Option Value × List Stmt)) (ts : List Value)
      (acc : List (List Char × List Stmt)),
    ifLower k (l1 ++ l2) ts acc =
      ifLower k l2 (ifLower k l1 ts acc).1 (ifLower k l1 ts acc).2 := by
  intro l1
  induction l1 with
  | nil => intro l2 ts acc; rfl
  | cons p rest ih =>
      intro l2 ts acc
      rcases p with ⟨oc, body⟩
      cases oc with
      | some c => simpa only [List.cons_append, ifLower] using ih l2 _ _
      | none => simpa only [List.cons_append, ifLower] using ih l2 _ _

theorem ifLower_branches (k : Nat) :
    ∀ (cs : List Value) (bs : List (List Stmt)) (ts : List Value)
      (acc : List (List Char × List Stmt)),
    cs.length = bs.length →
    ts.length + cs.length ≤ k →
    (∀ p ∈ acc, ∃ j, j < ts.length ∧ p.1 = specPat k j) →
    ifLower k (List.zip (cs.map some) bs) ts acc =
      (ts ++ cs.map reduceCond, acc ++ branchEntries k ts.length bs) := by
  intro cs
  induction cs with
  | nil =>
      intro bs ts acc hlen _ _
      have hbs : bs = [] := by cases bs <;> simp_all
      subst hbs
      simp [ifLower, branchEntries]
  | cons c cs ih =>
      intro bs ts acc hlen hk hkeys
      cases bs with
      | nil => simp at hlen
      | cons b bs =>
          have hts : ts.length < k := by
            simp only [List.length_cons] at hk; omega
          simp only [List.map_cons, List.zip_cons_cons, ifLower]
          have hlen' : (ts ++ [reduceCond c]).length - 1 = ts.length := by simp
          rw [hlen', rjust_one]
          have hfresh : ∀ p ∈ acc, p.1 ≠ specPat k ts.length := by
            intro p hp hcontra
            obtain ⟨j, hj, hpj⟩ := hkeys p hp
            have := specPat_inj (by omega : j < k) hts (hpj ▸ hcontra)
            omega
          rw [odInsert_append_of_not_mem acc _ b hfresh]
          have hkeys' : ∀ p ∈ acc ++ [(specPat k ts.length, b)],
              ∃ j, j < (ts ++ [reduceCond c]).length ∧ p.1 = specPat k j := by
            intro p hp
            rcases List.mem_append.mp hp with hp | hp
            · obtain ⟨j, hj, hpj⟩ := hkeys p hp
              exact ⟨j, by simp; omega, hpj⟩
            · simp at hp
              exact ⟨ts.length, by simp, by rw [hp]⟩
          have hk' : (ts ++ [reduceCond c]).length + cs.length ≤ k := by
            simp only [List.length_append, List.length_cons, List.length_nil] at hk ⊢
            omega
          rw [← List.zip_eq_zipWith]
          rw [ih bs (ts ++ [reduceCond c]) (acc ++ [(specPat k ts.length, b)])
                (by simpa using hlen) hk' hkeys']
          simp [branchEntries]

theorem ifLower_chain (k : Nat) (cs : List Value) (bs : List (List Stmt))
    (hk : k = cs.length)
    (hlen : bs.length = cs.length ∨ bs.length = cs.length + 1) :
    ifLower k (List.zip (cs.map some ++ [none]) bs) [] [] =
      (cs.map reduceCond, specChainCases k bs) := by
  rcases hlen with hlen | hlen
  · have hzip : List.zip (cs.map some ++ [none]) bs =
        List.zip (cs.map some) bs := by
      conv_lhs => rw [show bs = bs ++ [] by simp]
      rw [List.zip_append (by simp [hlen])]
      simp
    rw [hzip, ifLower_branches k cs bs [] [] hlen.symm (by simp [hk]) (by simp)]
    have : bs.take k = bs := List.take_of_length_le (by omega)
    simp [specChainCases, this, List.drop_of_length_le (by omega : bs.length ≤ k)]
  · obtain ⟨b_else, hbe⟩ : ∃ b_else, bs.drop cs.length = [b_else] := by
      have hd : (bs.drop cs.length).length = 1 := by simp [hlen]
      cases hdrop : bs.drop cs.length with
      | nil => rw [hdrop] at hd; simp at hd
      | cons x xs =>
          rw [hdrop] at hd
          simp at hd
          exact ⟨x, by simp [hd]⟩
    have hbs : bs = bs.take cs.length ++ [b_else] := by
      conv_lhs => rw [show bs = bs.take cs.length ++ bs.drop cs.length by simp]
      rw [hbe]
    have htlen : (bs.take cs.length).length = cs.length := by
      simp [hlen]
    rw [hbs, List.zip_append (by simp [htlen])]
    rw [ifLower_append]
    rw [ifLower_branches k cs (bs.take cs.length) [] [] htlen.symm
        (by simp [hk]) (by simp)]
    simp only [List.zip_cons_cons, List.zip_nil_right, ifLower, List.nil_append,
      List.length_nil]
    have hfresh : ∀ p ∈ branchEntries k 0 (bs.take cs.length),
        p.1 ≠ List.replicate (cs.map reduceCond).length '-' := by
      have hgen : ∀ (l : List (List Stmt)) (start : Nat), ∀ p ∈ branchEntries k start l,
          ∃ j, p.1 = specPat k j := by
        intro l
        induction l with
        | nil => intro start p hp; simp [branchEntries] at hp
        | cons x xs ihl =>
            intro start p hp
            simp only [branchEntries, List.mem_cons] at hp
            rcases hp with hp | hp
            · exact ⟨start, by rw [hp]⟩
            · exact ihl (start + 1) p hp
      intro p hp hcontra
      obtain ⟨j, hpj⟩ := hgen _ 0 p hp
      rw [hpj] at hcontra
      simp only [List.length_map, ← hk] at hcontra
      exact specPat_ne_replicate k j hcontra
    rw [odInsert_append_of_not_mem _ _ _ hfresh]
    have hcs : (cs.map reduceCond).length = k := by simp [hk]
    rw [hcs]
    simp only [specChainCases, hk]
    rw [hbs]
    have : (bs.take cs.length ++ [b_else]).take cs.length = bs.take cs.length := by
      rw [List.take_append_of_le_length (by omega)]
      simp [htlen]
    rw [this]
    have hdrop2 : (bs.take cs.length ++ [b_else]).drop cs.length = [b_else] := by
      rw [List.drop_append_of_le_length (by omega)]
      simp [htlen]
    rw [hdrop2]
    simp [this]

theorem flush_pending_if (m : ModuleState)
    (hc : m.stmt_if_cond ≠ [])
    (hlen : m.stmt_if_bodies.length = m.stmt_if_cond.length ∨
            m.stmt_if_bodies.length = m.stmt_if_cond.length + 1)
    (hsw : m.stmt_switch_test = none) :
    m.flush = { m with
      statements := m.statements ++
        [Stmt.switch (Value.cat (m.stmt_if_cond.map reduceCond))
          (specChainCases m.stmt_if_cond.length m.stmt_if_bodies)],
      stmt_if_cond := [], stmt_if_bodies := [], stmt_switch_test := none,
      stmt_switch_cases := [] } := by
  have hie : m.stmt_if_cond.isEmpty = false := by
    cases h : m.stmt_if_cond with
    | nil => exact absurd h hc
    | cons a l => rfl
  simp only [ModuleState.flush, hie, Bool.false_eq_true, if_false,
    ifLower_chain m.stmt_if_cond.length m.stmt_if_cond m.stmt_if_bodies rfl hlen,
    hsw]

theorem flush_driving (m : ModuleState) : m.flush.driving = m.driving := by
  unfold ModuleState.flush
  cases hie : m.stmt_if_cond.isEmpty <;> cases hsw : m.stmt_switch_test <;>
    simp [hie, hsw]

theorem flush_depth (m : ModuleState) : m.flush.stmt_depth = m.stmt_depth := by
  unfold ModuleState.flush
  cases hie : m.stmt_if_cond.isEmpty <;> cases hsw : m.stmt_switch_test <;>
    simp [hie, hsw]

theorem flush_clears (m : ModuleState) :
    m.flush.stmt_if_cond = [] ∧ m.flush.stmt_if_bodies = [] ∧
    m.flush.stmt_switch_test = none ∧ m.flush.stmt_switch_cases = [] := by
  unfold ModuleState.flush
  cases hie : m.stmt_if_cond.isEmpty <;> cases hsw : m.stmt_switch_test <;>
    simp [hie, hsw]

theorem flush_statements_no_pending (m : ModuleState)
    (hc : m.stmt_if_cond = []) (hsw : m.stmt_switch_test = none) :
    m.flush.statements = m.statements := by
  simp only [ModuleState.flush, hc, List.isEmpty_nil, if_true, hsw]

theorem flush_flush (m : ModuleState) : m.flush.flush = m.flush := by
  have h := flush_clears m
  have h1 : m.flush.flush.statements = m.flush.statements :=
    flush_statements_no_pending m.flush h.1 h.2.2.1
  have h2 := flush_clears m.flush
  have hdrv : m.flush.flush.driving = m.flush.driving := flush_driving m.flush
  have hdep : m.flush.flush.stmt_depth = m.flush.stmt_depth := flush_depth m.flush
  cases hm : m.flush
  cases hm2 : m.flush.flush
  simp_all

theorem checkSignals_lookup_mono (cd : Option String) :
    ∀ (sigs : List Nat) (driving driving' : List (Nat × Option String))
      (s : Nat) (c : Option String),
    List.lookup s driving = some c →
    checkSignals cd sigs driving = .ok driving' →
    List.lookup s driving' = some c := by
  intro sigs
  induction sigs with
  | nil =>
      intro driving driving' s c hl hck
      simp only [checkSignals, Except.ok.injEq] at hck
      rw [← hck]; exact hl
  | cons a rest ih =>
      intro driving driving' s c hl hck
      simp only [checkSignals] at hck
      cases hla : List.lookup a driving with
      | none =>
          simp only [hla] at hck
          exact ih _ _ s c (lookup_append_of_some s c _ _ hl) hck
      | some cd_curr =>
          simp only [hla] at hck
          by_cases he : cd_curr = cd
          · simp only [if_pos he] at hck
            exact ih _ _ s c hl hck
          · simp only [if_neg he] at hck
            cases hck

theorem checkSignals_fresh (cd : Option String) (s : Nat)
    (driving : List (Nat × Option String))
    (h : List.lookup s driving = none) :
    checkSignals cd [s] driving = .ok (driving ++ [(s, cd)]) := by
  simp only [checkSignals, h]

theorem checkSignals_same (cd : Option String) (s : Nat)
    (driving : List (Nat × Option String))
    (h : List.lookup s driving = some cd) :
    checkSignals cd [s] driving = .ok driving := by
  simp [checkSignals, h]

theorem checkSignals_conflict (cd cd_curr : Option String) (s : Nat)
    (driving : List (Nat × Option String))
    (h : List.lookup s driving = some cd_curr) (hne : cd_curr ≠ cd) :
    checkSignals cd [s] driving = .error (driverConflictMsg s cd cd_curr) := by
  simp [checkSignals, h, hne]

theorem processAssigns_ok (cd : Option String) :
    ∀ (stmts : List Stmt) (m m' : ModuleState),
    processAssigns m cd stmts = .ok m' →
    m'.statements = m.statements ++ stmts ∧
    m'.stmt_depth = m.stmt_depth ∧
    m'.stmt_if_cond = m.stmt_if_cond ∧
    m'.stmt_if_bodies = m.stmt_if_bodies ∧
    m'.stmt_switch_test = m.stmt_switch_test ∧
    m'.stmt_switch_cases = m.stmt_switch_cases := by
  intro stmts
  induction stmts with
  | nil =>
      intro m m' h
      simp only [processAssigns, Except.ok.injEq] at h
      subst h; simp
  | cons a rest ih =>
      intro m m' h
      simp only [processAssigns] at h
      cases ha : processAssign m cd a with
      | error e => simp only [ha] at h; cases h
      | ok m1 =>
          simp only [ha] at h
          obtain ⟨h1, h2, h3, h4, h5, h6⟩ := ih m1 m' h
          cases a with
          | assign lhs rhs =>
              simp only [processAssign] at ha
              cases hck : checkSignals cd lhs m.driving with
              | error e => simp only [hck] at ha; cases ha
              | ok d' =>
                  simp only [hck, Except.ok.injEq] at ha
                  subst ha
                  simp_all
          | switch t cs => simp [processAssign] at ha
          | other => simp [processAssign] at ha

theorem processAssigns_driving_mono (cd : Option String) :
    ∀ (stmts : List Stmt) (m m' : ModuleState) (s : Nat) (c : Option String),
    List.lookup s m.driving = some c →
    processAssigns m cd stmts = .ok m' →
    List.lookup s m'.driving = some c := by
  intro stmts
  induction stmts with
  | nil =>
      intro m m' s c hl h
      simp only [processAssigns, Except.ok.injEq] at h
      subst h; exact hl
  | cons a rest ih =>
      intro m m' s c hl h
      simp only [processAssigns] at h
      cases ha : processAssign m cd a with
      | error e => simp only [ha] at h; cases h
      | ok m1 =>
          simp only [ha] at h
          cases a with
          | assign lhs rhs =>
              simp only [processAssign] at ha
              cases hck : checkSignals cd lhs m.driving with
              | error e => simp only [hck] at ha; cases ha
              | ok d' =>
                  simp only [hck, Except.ok.injEq] at ha
                  subst ha
                  exact ih _ m' s c (checkSignals_lookup_mono cd lhs m.driving d' s c hl hck) h
          | switch t cs => simp [processAssign] at ha
          | other => simp [processAssign] at ha

theorem processAssign_same (m : ModuleState) (cd : Option String) (s : Nat)
    (rhs : Value) (h : List.lookup s m.driving = some cd) :
    processAssign m cd (Stmt.assign [s] rhs) =
      .ok { m with statements := m.statements ++ [Stmt.assign [s] rhs] } := by
  simp only [processAssign, checkSignals_same cd s m.driving h]

theorem processAssign_fresh (m : ModuleState) (cd : Option String) (s : Nat)
    (rhs : Value) (h : List.lookup s m.driving = none) :
    processAssign m cd (Stmt.assign [s] rhs) =
      .ok { m with driving := m.driving ++ [(s, cd)],
                   statements := m.statements ++ [Stmt.assign [s] rhs] } := by
  simp only [processAssign, checkSignals_fresh cd s m.driving h]

theorem processAssign_conflict (m : ModuleState) (cd cd_curr : Option String)
    (s : Nat) (rhs : Value) (h : List.lookup s m.driving = some cd_curr)
    (hne : cd_curr ≠ cd) :
    processAssign m cd (Stmt.assign [s] rhs) =
      .error (driverConflictMsg s cd cd_curr) := by
  simp only [processAssign, checkSignals_conflict cd cd_curr s m.driving h hne]

theorem addStatement_driving_start (m : ModuleState) (depth : Nat) :
    (if depth < m.stmt_depth then m.flush else m).driving = m.driving := by
  by_cases h : depth < m.stmt_depth
  · simp [h, flush_driving]
  · simp [h]

theorem processAssigns_single_same (m : ModuleState) (cd : Option String)
    (s : Nat) (rhs : Value) (h : List.lookup s m.driving = some cd) :
    processAssigns m cd [Stmt.assign [s] rhs] =
      .ok { m with statements := m.statements ++ [Stmt.assign [s] rhs] } := by
  simp only [processAssigns, processAssign_same m cd s rhs h]

theorem processAssigns_single_fresh (m : ModuleState) (cd : Option String)
    (s : Nat) (rhs : Value) (h : List.lookup s m.driving = none) :
    processAssigns m cd [Stmt.assign [s] rhs] =
      .ok { m with driving := m.driving ++ [(s, cd)],
                   statements := m.statements ++ [Stmt.assign [s] rhs] } := by
  simp only [processAssigns, processAssign_fresh m cd s rhs h]

theorem addStatement_same_domain (m : ModuleState) (cd : Option String) (s : Nat)
    (rhs : Value) (depth : Nat) (h : List.lookup s m.driving = some cd) :
    ∃ m', m.addStatement [Stmt.assign [s] rhs] cd depth = .ok m' ∧
      List.lookup s m'.driving = some cd := by
  unfold ModuleState.addStatement
  have h0 : List.lookup s ({ (if depth < m.stmt_depth then m.flush else m) with
      stmt_depth := depth } : ModuleState).driving = some cd := by
    show List.lookup s (if depth < m.stmt_depth then m.flush else m).driving = some cd
    rw [addStatement_driving_start m depth]; exact h
  rw [processAssigns_single_same _ cd s rhs h0]
  exact ⟨_, rfl, h0⟩

theorem addStatement_fresh_domain (m : ModuleState) (cd : Option String) (s : Nat)
    (rhs : Value) (depth : Nat) (h : List.lookup s m.driving = none) :
    ∃ m', m.addStatement [Stmt.assign [s] rhs] cd depth = .ok m' ∧
      List.lookup s m'.driving = some cd ∧ m'.driving = m.driving ++ [(s, cd)] := by
  unfold ModuleState.addStatement
  have h0 : List.lookup s ({ (if depth < m.stmt_depth then m.flush else m) with
      stmt_depth := depth } : ModuleState).driving = none := by
    show List.lookup s (if depth < m.stmt_depth then m.flush else m).driving = none
    rw [addStatement_driving_start m depth]; exact h
  have hdm : ({ (if depth < m.stmt_depth then m.flush else m) with
      stmt_depth := depth } : ModuleState).driving = m.driving := by
    show (if depth < m.stmt_depth then m.flush else m).driving = m.driving
    exact addStatement_driving_start m depth
  rw [processAssigns_single_fresh _ cd s rhs h0]
  refine ⟨_, rfl, ?_, ?_⟩
  · show List.lookup s (({ (if depth < m.stmt_depth then m.flush else m) with
        stmt_depth := depth } : ModuleState).driving ++ [(s, cd)]) = some cd
    rw [lookup_append_of_none s _ [(s, cd)] h0]
    simp [List.lookup]
  · show ({ (if depth < m.stmt_depth then m.flush else m) with
        stmt_depth := depth } : ModuleState).driving ++ [(s, cd)] = m.driving ++ [(s, cd)]
    rw [hdm]

theorem addStatement_conflict (m : ModuleState) (cd cd_curr : Option String)
    (s : Nat) (rhs : Value) (depth : Nat)
    (h : List.lookup s m.driving = some cd_curr) (hne : cd_curr ≠ cd) :
    m.addStatement [Stmt.assign [s] rhs] cd depth =
      .error (driverConflictMsg s cd cd_curr) := by
  unfold ModuleState.addStatement
  have h0 : List.lookup s ({ (if depth < m.stmt_depth then m.flush else m) with
      stmt_depth := depth } : ModuleState).driving = some cd_curr := by
    show List.lookup s (if depth < m.stmt_depth then m.flush else m).driving = some cd_curr
    rw [addStatement_driving_start m depth]; exact h
  simp only [processAssigns, processAssign_conflict _ cd cd_curr s rhs h0 hne]

theorem addStatement_driving_mono (m m' : ModuleState) (stmts : List Stmt)
    (cd : Option String) (depth : Nat) (s : Nat) (c : Option String)
    (hl : List.lookup s m.driving = some c)
    (h : m.addStatement stmts cd depth = .ok m') :
    List.lookup s m'.driving = some c := by
  unfold ModuleState.addStatement at h
  refine processAssigns_driving_mono cd stmts _ m' s c ?_ h
  show List.lookup s (if depth < m.stmt_depth then m.flush else m).driving = some c
  rw [addStatement_driving_start m depth]
  exact hl

theorem caseEnter_driving (m m' : ModuleState) (test : Value)
    (value : Option (List Char)) (sc : CaseScope)
    (h : m.caseEnter test value = .ok (m', sc)) : m'.driving = m.driving := by
  unfold ModuleState.caseEnter at h
  by_cases hw : test.len ≠ (match value with
    | none => List.replicate test.len '-'
    | some v => v).length
  · simp only [if_pos hw] at h; cases h
  · simp only [if_neg hw] at h
    by_cases he : m.stmt_switch_test = some test
    · simp only [if_pos he, Except.ok.injEq, Prod.mk.injEq] at h
      rw [← h.1]
    · simp only [if_neg he, Except.ok.injEq, Prod.mk.injEq] at h
      rw [← h.1]
      exact flush_driving m

theorem caseExit_driving (m : ModuleState) (sc : CaseScope) :
    (m.caseExit sc).driving = m.driving := rfl

theorem flush_statements_pending (m : ModuleState)
    (hc : m.stmt_if_cond ≠ []) (hsw : m.stmt_switch_test = none) :
    ∃ t cs, m.flush.statements = m.statements ++ [Stmt.switch t cs] := by
  have hie : m.stmt_if_cond.isEmpty = false := by
    cases h : m.stmt_if_cond with
    | nil => exact absurd h hc
    | cons a l => rfl
  simp only [ModuleState.flush, hie, Bool.false_eq_true, if_false, hsw]
  exact ⟨_, _, rfl⟩

theorem flush_statements_switch (m : ModuleState) (t : Value)
    (hifc : m.stmt_if_cond = []) (hsw : m.stmt_switch_test = some t) :
    m.flush.statements = m.statements ++ [Stmt.switch t m.stmt_switch_cases] := by
  simp only [ModuleState.flush, hifc, List.isEmpty_nil, if_true, hsw]

/-- C1: flushing a pending If/Elif/Else chain with conditions c1..ck and
bodies b1..bk (plus an optional trailing else body) appends exactly one
selection statement whose test is the concatenation of the reduced
conditions with c1 at the least-significant position, and whose
insertion-ordered pattern map is, in order, one entry per branch i with a
pattern of length k that is all wildcards except a one at the position of
ci, followed by the all-wildcard entry exactly when an else body is
present; both pending chain states are cleared. -/
theorem C1_flush_if_chain (m : ModuleState)
    (hc : m.stmt_if_cond ≠ [])
    (hlen : m.stmt_if_bodies.length = m.stmt_if_cond.length ∨
            m.stmt_if_bodies.length = m.stmt_if_cond.length + 1)
    (hsw : m.stmt_switch_test = none) :
    m.flush = { m with
      statements := m.statements ++
        [Stmt.switch (Value.cat (m.stmt_if_cond.map reduceCond))
          (specChainCases m.stmt_if_cond.length m.stmt_if_bodies)],
      stmt_if_cond := [], stmt_if_bodies := [], stmt_switch_test := none,
      stmt_switch_cases := [] } :=
  flush_pending_if m hc hlen hsw

/-- C1 witness: a concrete two-condition chain with an else body lowers to
one Switch whose pattern map is the three entries -1, 1-, -- in that
order. -/
theorem C1_flush_if_chain_witness :
    ([Value.signal 0 1, Value.signal 1 1] ≠ ([] : List Value)) ∧
    (([[Stmt.assign [5] (Value.const 1 1)], [Stmt.assign [5] (Value.const 0 1)],
       [Stmt.assign [6] (Value.const 1 1)]] : List (List Stmt)).length =
       ([Value.signal 0 1, Value.signal 1 1] : List Value).length + 1) ∧
    ({ ModuleState.empty with
       stmt_if_cond := [Value.signal 0 1, Value.signal 1 1],
       stmt_if_bodies := [[Stmt.assign [5] (Value.const 1 1)],
         [Stmt.assign [5] (Value.const 0 1)],
         [Stmt.assign [6] (Value.const 1 1)]] } : ModuleState).flush =
      { ModuleState.empty with
        statements := [Stmt.switch (Value.cat [Value.signal 0 1, Value.signal 1 1])
          [(['-', '1'], [Stmt.assign [5] (Value.const 1 1)]),
           (['1', '-'], [Stmt.assign [5] (Value.const 0 1)]),
           (['-', '-'], [Stmt.assign [6] (Value.const 1 1)])]] } := by
  refine ⟨by decide, by decide, ?_⟩
  have h := C1_flush_if_chain
    { ModuleState.empty with
      stmt_if_cond := [Value.signal 0 1, Value.signal 1 1],
      stmt_if_bodies := [[Stmt.assign [5] (Value.const 1 1)],
        [Stmt.assign [5] (Value.const 0 1)],
        [Stmt.assign [6] (Value.const 1 1)]] }
    (by decide) (Or.inr (by decide)) rfl
  rw [h]
  decide

/-- C4: when append receives statements at a depth shallower than the
recorded depth while a conditional or a case chain is pending, the pending
chain is flushed first and its lowered selection statement is placed in the
statement list before the incoming assignments: for a pending If/Elif/Else
chain the lowered Switch precedes the assignments, and for a pending case
chain the flushed Switch, carrying the pending test and the accumulated
case map, precedes the assignments. -/
theorem C4_flush_before_shallower_append (m m' : ModuleState)
    (assigns : List Stmt) (cd : Option String) (depth : Nat)
    (hdep : depth < m.stmt_depth)
    (hok : m.addStatement assigns cd depth = .ok m') :
    (m.stmt_if_cond ≠ [] → m.stmt_switch_test = none →
      ∃ t cs, m'.statements = m.statements ++ Stmt.switch t cs :: assigns) ∧
    (m.stmt_if_cond = [] → ∀ t : Value, m.stmt_switch_test = some t →
      m'.statements =
        m.statements ++ Stmt.switch t m.stmt_switch_cases :: assigns) := by
  unfold ModuleState.addStatement at hok
  rw [if_pos hdep] at hok
  obtain ⟨h1, _⟩ := processAssigns_ok cd assigns _ m' hok
  constructor
  · intro hpend hsw
    obtain ⟨t, cs, hf⟩ := flush_statements_pending m hpend hsw
    refine ⟨t, cs, ?_⟩
    rw [h1]
    show m.flush.statements ++ assigns = _
    rw [hf]
    simp
  · intro hifc t hsw
    have hf := flush_statements_switch m t hifc hsw
    rw [h1]
    show m.flush.statements ++ assigns = _
    rw [hf]
    simp

/-- C4 witness: an append at depth 0 while an If chain is pending at depth
1 places the lowered Switch before the assignment, and an append at depth 0
while a case chain is pending at depth 1 places the flushed case Switch,
carrying the accumulated map, before the assignment. -/
theorem C4_flush_before_shallower_append_witness :
    (0 < 1) ∧
    (([Value.signal 0 1] : List Value) ≠ []) ∧
    (∃ t cs,
      (match ({ ModuleState.empty with
          stmt_depth := 1,
          stmt_if_cond := [Value.signal 0 1],
          stmt_if_bodies := [[Stmt.assign [5] (Value.const 1 1)]] } : ModuleState).addStatement
          [Stmt.assign [6] (Value.const 0 1)] none 0 with
        | .ok mr => mr.statements
        | .error _ => []) =
        Stmt.switch t cs :: [Stmt.assign [6] (Value.const 0 1)]) ∧
    ((match ({ ModuleState.empty with
        stmt_depth := 1,
        stmt_switch_test := some (Value.signal 0 1),
        stmt_switch_cases := [(['1'], [Stmt.assign [5] (Value.const 1 1)])] } : ModuleState).addStatement
        [Stmt.assign [6] (Value.const 0 1)] none 0 with
      | .ok mr => mr.statements
      | .error _ => []) =
      Stmt.switch (Value.signal 0 1) [(['1'], [Stmt.assign [5] (Value.const 1 1)])] ::
        [Stmt.assign [6] (Value.const 0 1)]) := by
  refine ⟨by decide, by decide, ?_, ?_⟩
  · have hok : ({ ModuleState.empty with
        stmt_depth := 1,
        stmt_if_cond := [Value.signal 0 1],
        stmt_if_bodies := [[Stmt.assign [5] (Value.const 1 1)]] } : ModuleState).addStatement
        [Stmt.assign [6] (Value.const 0 1)] none 0 =
        .ok { ModuleState.empty with
          driving := [(6, none)],
          statements := [Stmt.switch (Value.cat [Value.signal 0 1])
              [(['1'], [Stmt.assign [5] (Value.const 1 1)])],
            Stmt.assign [6] (Value.const 0 1)] } := by decide
    obtain ⟨t, cs, h⟩ := (C4_flush_before_shallower_append _ _
      [Stmt.assign [6] (Value.const 0 1)] none 0 (by decide) hok).1 (by decide) rfl
    refine ⟨t, cs, ?_⟩
    rw [hok]
    exact h
  · have hok : ({ ModuleState.empty with
        stmt_depth := 1,
        stmt_switch_test := some (Value.signal 0 1),
        stmt_switch_cases := [(['1'], [Stmt.assign [5] (Value.const 1 1)])] } : ModuleState).addStatement
        [Stmt.assign [6] (Value.const 0 1)] none 0 =
        .ok { ModuleState.empty with
          driving := [(6, none)],
          statements := [Stmt.switch (Value.signal 0 1)
              [(['1'], [Stmt.assign [5] (Value.const 1 1)])],
            Stmt.assign [6] (Value.const 0 1)] } := by decide
    have h := (C4_flush_before_shallower_append _ _
      [Stmt.assign [6] (Value.const 0 1)] none 0 (by decide) hok).2 rfl
      (Value.signal 0 1) rfl
    exact h

/-- C7: during conditional lowering, a condition wider than one bit is
replaced by its boolean OR-reduction (nonzero test) and a condition exactly
one bit wide passes through the normalisation unchanged. -/
theorem C7_condition_reduction (c : Value) :
    (1 < c.len → reduceCond c = Value.bool c) ∧
    (c.len = 1 → reduceCond c = c) := by
  constructor
  · intro h
    have hne : c.len ≠ 1 := by omega
    simp [reduceCond, hne]
  · intro h
    simp [reduceCond, h]

/-- C7 witness: a four-bit signal is reduced, a one-bit signal passes
through. -/
theorem C7_condition_reduction_witness :
    (1 < (Value.signal 2 4).len ∧
      reduceCond (Value.signal 2 4) = Value.bool (Value.signal 2 4)) ∧
    ((Value.signal 0 1).len = 1 ∧ reduceCond (Value.signal 0 1) = Value.signal 0 1) :=
  ⟨⟨by decide, (C7_condition_reduction (Value.signal 2 4)).1 (by decide)⟩,
   ⟨by decide, (C7_condition_reduction (Value.signal 0 1)).2 (by decide)⟩⟩

/-- C10: every flush clears both pending chain states; a flush with neither
chain pending leaves the statement list unchanged; and two consecutive
flushes equal one. -/
theorem C10_flush_idempotent (m : ModuleState) :
    (m.stmt_if_cond = [] → m.stmt_switch_test = none →
      m.flush.statements = m.statements) ∧
    m.flush.stmt_if_cond = [] ∧ m.flush.stmt_if_bodies = [] ∧
    m.flush.stmt_switch_test = none ∧ m.flush.stmt_switch_cases = [] ∧
    m.flush.flush = m.flush := by
  obtain ⟨h1, h2, h3, h4⟩ := flush_clears m
  exact ⟨fun hc hsw => flush_statements_no_pending m hc hsw,
    h1, h2, h3, h4, flush_flush m⟩

/-- C10 witness: flushing a state with no pending chain keeps its
statements; flushing twice equals flushing once. -/
theorem C10_flush_idempotent_witness :
    (([] : List Value) = [] → (none : Option Value) = none →
      ({ ModuleState.empty with
         statements := [Stmt.assign [3] (Value.const 1 1)] } : ModuleState).flush.statements =
        [Stmt.assign [3] (Value.const 1 1)]) ∧
    ({ ModuleState.empty with
       statements := [Stmt.assign [3] (Value.const 1 1)] } : ModuleState).flush.stmt_if_cond = [] ∧
    ({ ModuleState.empty with
       statements := [Stmt.assign [3] (Value.const 1 1)] } : ModuleState).flush.stmt_if_bodies = [] ∧
    ({ ModuleState.empty with
       statements := [Stmt.assign [3] (Value.const 1 1)] } : ModuleState).flush.stmt_switch_test = none ∧
    ({ ModuleState.empty with
       statements := [Stmt.assign [3] (Value.const 1 1)] } : ModuleState).flush.stmt_switch_cases = [] ∧
    ({ ModuleState.empty with
       statements := [Stmt.assign [3] (Value.const 1 1)] } : ModuleState).flush.flush =
      ({ ModuleState.empty with
         statements := [Stmt.assign [3] (Value.const 1 1)] } : ModuleState).flush :=
  C10_flush_idempotent
    { ModuleState.empty with statements := [Stmt.assign [3] (Value.const 1 1)] }

/-- C2: a signal first assigned from the unclocked domain and then from a
named domain makes the conflicting append fail with the driver-conflict
error, whose message is built from the signal and from the human-readable
names of both domains (comb for the unclocked domain); no successor state
is ever produced from the conflicting append, so neither domain is silently
picked. -/
theorem C2_driver_conflict (m m₁ : ModuleState) (s : Nat) (d : String)
    (v v' : Value) (dep dep' : Nat)
    (h0 : List.lookup s m.driving = none)
    (h1 : m.addStatement [Stmt.assign [s] v] none dep = .ok m₁) :
    m₁.addStatement [Stmt.assign [s] v'] (some d) dep' =
      .error (driverConflictMsg s (some d) none) ∧
    cdHumanName (none : Option String) = "comb" ∧
    cdHumanName (some d) = d ∧
    (∀ m₂, m₁.addStatement [Stmt.assign [s] v'] (some d) dep' ≠ .ok m₂) := by
  obtain ⟨m', he, hl, _⟩ := addStatement_fresh_domain m none s v dep h0
  rw [he] at h1
  injection h1 with h1
  subst h1
  have hc := addStatement_conflict m' (some d) none s v' dep' hl (by simp)
  refine ⟨hc, rfl, rfl, ?_⟩
  intro m₂ hcon
  rw [hc] at hcon
  cases hcon

/-- C2 witness: signal 0 driven from comb and then from sync. -/
theorem C2_driver_conflict_witness :
    List.lookup 0 ModuleState.empty.driving = none ∧
    ModuleState.empty.addStatement [Stmt.assign [0] (Value.const 0 1)] none 0 =
      .ok { ModuleState.empty with
            driving := [(0, none)],
            statements := [Stmt.assign [0] (Value.const 0 1)] } ∧
    ({ ModuleState.empty with
       driving := [(0, none)],
       statements := [Stmt.assign [0] (Value.const 0 1)] } : ModuleState).addStatement
        [Stmt.assign [0] (Value.const 1 1)] (some "sync") 0 =
      .error (driverConflictMsg 0 (some "sync") none) := by
  refine ⟨rfl, by decide, ?_⟩
  exact (C2_driver_conflict ModuleState.empty _ 0 "sync" (Value.const 0 1)
    (Value.const 1 1) 0 0 rfl (by decide)).1

/-- The repeated-append scenario used by the driver-map claims: a sequence
of single-assignment appends to signal s through domain cd, each append
carrying its own right-hand value and depth. -/
def appendSeq (m : ModuleState) (s : Nat) (cd : Option String) :
    List (Value × Nat) → Except String ModuleState
  | [] => .ok m
  | (v, dep) :: rest =>
      match m.addStatement [Stmt.assign [s] v] cd dep with
      | .ok m' => appendSeq m' s cd rest
      | .error e => .error e

theorem appendSeq_same_domain (s : Nat) (cd : Option String) :
    ∀ (vs : List (Value × Nat)) (m : ModuleState),
    List.lookup s m.driving = some cd →
    ∃ m', appendSeq m s cd vs = .ok m' ∧ List.lookup s m'.driving = some cd := by
  intro vs
  induction vs with
  | nil => intro m h; exact ⟨m, rfl, h⟩
  | cons p rest ih =>
      intro m h
      rcases p with ⟨v, dep⟩
      obtain ⟨m1, he, hl⟩ := addStatement_same_domain m cd s v dep h
      obtain ⟨m', he', hl'⟩ := ih m1 hl
      refine ⟨m', ?_, hl'⟩
      simp only [appendSeq, he, he']

/-- C3: a sequence of appended assignments to one signal, all with the same
domain name, raises no error; the first append records the domain in the
driver map, and the entry stays exactly that domain under every later
operation of the module: further appends, flushes, and case scopes. -/
theorem C3_single_domain (m : ModuleState) (s : Nat) (cd : Option String)
    (v : Value) (dep : Nat) (vs : List (Value × Nat))
    (h0 : List.lookup s m.driving = none) :
    (∃ m₁, m.addStatement [Stmt.assign [s] v] cd dep = .ok m₁ ∧
       List.lookup s m₁.driving = some cd ∧
       appendSeq m s cd ((v, dep) :: vs) = appendSeq m₁ s cd vs) ∧
    (∃ m', appendSeq m s cd ((v, dep) :: vs) = .ok m' ∧
       List.lookup s m'.driving = some cd) ∧
    (∀ (m₂ m₃ : ModuleState) (stmts : List Stmt) (cd₂ : Option String)
       (dep₂ : Nat) (c : Option String),
       List.lookup s m₂.driving = some c →
       m₂.addStatement stmts cd₂ dep₂ = .ok m₃ →
       List.lookup s m₃.driving = some c) ∧
    (∀ m₂ : ModuleState, m₂.flush.driving = m₂.driving) ∧
    (∀ (m₂ m₃ : ModuleState) (t : Value) (val : Option (List Char))
       (sc : CaseScope), m₂.caseEnter t val = .ok (m₃, sc) →
       m₃.driving = m₂.driving) ∧
    (∀ (m₂ : ModuleState) (sc : CaseScope),
       (m₂.caseExit sc).driving = m₂.driving) := by
  obtain ⟨m₁, he, hl, _⟩ := addStatement_fresh_domain m cd s v dep h0
  have hseq : appendSeq m s cd ((v, dep) :: vs) = appendSeq m₁ s cd vs := by
    simp only [appendSeq, he]
  refine ⟨⟨m₁, he, hl, hseq⟩, ?_, ?_, flush_driving, ?_, caseExit_driving⟩
  · obtain ⟨m', he', hl'⟩ := appendSeq_same_domain s cd vs m₁ hl
    exact ⟨m', hseq.trans he', hl'⟩
  · intro m₂ m₃ stmts cd₂ dep₂ c hlc hok
    exact addStatement_driving_mono m₂ m₃ stmts cd₂ dep₂ s c hlc hok
  · intro m₂ m₃ t val sc h
    exact caseEnter_driving m₂ m₃ t val sc h

/-- C3 witness: two appends of signal 1 through d.sync succeed and leave
the driver map at sync. -/
theorem C3_single_domain_witness :
    List.lookup 1 ModuleState.empty.driving = none ∧
    (∃ m', appendSeq ModuleState.empty 1 (some "sync")
        ((Value.const 0 1, 0) :: [(Value.const 1 1, 0)]) = .ok m' ∧
       List.lookup 1 m'.driving = some (some "sync")) := by
  refine ⟨rfl, ?_⟩
  exact (C3_single_domain ModuleState.empty 1 (some "sync") (Value.const 0 1) 0
    [(Value.const 1 1, 0)] rfl).2.1

/-- C5: entering a Case scope with an explicit pattern whose length differs
from the width of the test raises the width-mismatch syntax error at that
call; entering with the pattern omitted always succeeds, the scope pattern
defaults to the all-wildcard pattern of the width of the test, and exiting
the scope records the body under that all-wildcard pattern. -/
theorem C5_case_width (m : ModuleState) (test : Value) (v : List Char) :
    (v.length ≠ test.len → m.caseEnter test (some v) = .error (caseWidthMsg v)) ∧
    (∃ m₁ sc, m.caseEnter test none = .ok (m₁, sc) ∧
       sc.value = List.replicate test.len '-' ∧
       ∀ body : List Stmt,
         (ModuleState.caseExit { m₁ with statements := body } sc).stmt_switch_cases =
           odInsert m₁.stmt_switch_cases (List.replicate test.len '-') body) := by
  constructor
  · intro hv
    unfold ModuleState.caseEnter
    simp only []
    rw [if_pos (fun h => hv h.symm)]
  · unfold ModuleState.caseEnter
    simp only []
    rw [if_neg (by simp)]
    by_cases he : m.stmt_switch_test = some test
    · rw [if_pos he]
      exact ⟨_, _, rfl, rfl, fun body => rfl⟩
    · rw [if_neg he]
      exact ⟨_, _, rfl, rfl, fun body => rfl⟩

/-- C5 witness: a one-character pattern against a three-bit test errors;
the omitted pattern defaults to three wildcards and records the body
there. -/
theorem C5_case_width_witness :
    ((['1'] : List Char).length ≠ (Value.signal 0 3).len →
      ModuleState.empty.caseEnter (Value.signal 0 3) (some ['1']) =
        .error (caseWidthMsg ['1'])) ∧
    (∃ m₁ sc, ModuleState.empty.caseEnter (Value.signal 0 3) none = .ok (m₁, sc) ∧
       sc.value = List.replicate (Value.signal 0 3).len '-' ∧
       ∀ body : List Stmt,
         (ModuleState.caseExit { m₁ with statements := body } sc).stmt_switch_cases =
           odInsert m₁.stmt_switch_cases
             (List.replicate (Value.signal 0 3).len '-') body) :=
  C5_case_width ModuleState.empty (Value.signal 0 3) ['1']

/-- C6: opening a Case scope whose test differs under the structural
equality key from the pending test flushes the pending switch intact (the
flushed Switch carries the old test and exactly the accumulated pattern
map) and starts a fresh one; a Case whose test is structurally equal to the
pending one continues the same switch without flushing. -/
theorem C6_switch_test_change (m : ModuleState) (t1 t2 : Value)
    (v : Option (List Char))
    (hpend : m.stmt_switch_test = some t1)
    (hne : t1 ≠ t2)
    (hifc : m.stmt_if_cond = []) :
    (∀ m₁ sc, m.caseEnter t2 v = .ok (m₁, sc) →
       sc.outer = m.statements ++ [Stmt.switch t1 m.stmt_switch_cases] ∧
       m₁.statements = [] ∧
       m₁.stmt_switch_test = some t2 ∧
       m₁.stmt_switch_cases = []) ∧
    (∀ m₁ sc, m.caseEnter t1 v = .ok (m₁, sc) →
       sc.outer = m.statements ∧
       m₁.statements = [] ∧
       m₁.stmt_switch_test = some t1 ∧
       m₁.stmt_switch_cases = m.stmt_switch_cases) := by
  constructor
  · intro m₁ sc h
    unfold ModuleState.caseEnter at h
    by_cases hw : t2.len ≠ (match v with
        | none => List.replicate t2.len '-'
        | some w => w).length
    · rw [if_pos hw] at h; cases h
    · rw [if_neg hw] at h
      have hne2 : ¬(m.stmt_switch_test = some t2) := by
        rw [hpend]; intro hx; exact hne (Option.some.injEq t1 t2 ▸ hx)
      rw [if_neg hne2] at h
      injection h with h
      injection h with hm hsc
      subst hm
      subst hsc
      refine ⟨?_, rfl, rfl, (flush_clears m).2.2.2⟩
      show ({ m.flush with stmt_switch_test := some t2 } : ModuleState).statements = _
      show m.flush.statements = _
      exact flush_statements_switch m t1 hifc hpend
  · intro m₁ sc h
    unfold ModuleState.caseEnter at h
    by_cases hw : t1.len ≠ (match v with
        | none => List.replicate t1.len '-'
        | some w => w).length
    · rw [if_pos hw] at h; cases h
    · rw [if_neg hw] at h
      rw [if_pos hpend] at h
      injection h with h
      injection h with hm hsc
      subst hm
      subst hsc
      exact ⟨rfl, rfl, hpend, rfl⟩

/-- C6 witness: a pending switch over signal 0 is flushed intact when a
Case over signal 1 opens, and continued without flushing when a Case over
signal 0 opens. -/
theorem C6_switch_test_change_witness :
    (({ ModuleState.empty with
        stmt_switch_test := some (Value.signal 0 1),
        stmt_switch_cases := [(['1'], [Stmt.assign [5] (Value.const 1 1)])] } :
        ModuleState).stmt_switch_test = some (Value.signal 0 1)) ∧
    (Value.signal 0 1 ≠ Value.signal 1 1) ∧
    (∀ m₁ sc,
      ({ ModuleState.empty with
         stmt_switch_test := some (Value.signal 0 1),
         stmt_switch_cases := [(['1'], [Stmt.assign [5] (Value.const 1 1)])] } :
         ModuleState).caseEnter (Value.signal 1 1) none = .ok (m₁, sc) →
      sc.outer = [Stmt.switch (Value.signal 0 1)
          [(['1'], [Stmt.assign [5] (Value.const 1 1)])]] ∧
      m₁.statements = [] ∧
      m₁.stmt_switch_test = some (Value.signal 1 1) ∧
      m₁.stmt_switch_cases = []) := by
  refine ⟨rfl, by decide, ?_⟩
  intro m₁ sc h
  have := (C6_switch_test_change
    { ModuleState.empty with
      stmt_switch_test := some (Value.signal 0 1),
      stmt_switch_cases := [(['1'], [Stmt.assign [5] (Value.const 1 1)])] }
    (Value.signal 0 1) (Value.signal 1 1) none rfl (by decide) rfl).1 m₁ sc h
  simpa using this

theorem filter_single_key {β : Type} (p : List Char) (b : β) :
    ∀ (pre post : List (List Char × β)),
    (∀ q ∈ pre, q.1 ≠ p) → (∀ q ∈ post, q.1 ≠ p) →
    (pre ++ (p, b) :: post).filter (fun q => q.1 == p) = [(p, b)] := by
  intro pre
  induction pre with
  | nil =>
      intro post _ hpost
      simp only [List.nil_append, List.filter_cons]
      rw [if_pos (by simp)]
      have : post.filter (fun q => q.1 == p) = [] := by
        induction post with
        | nil => rfl
        | cons q rest ihq =>
            simp only [List.filter_cons]
            rw [if_neg (by simpa using hpost q (by simp))]
            exact ihq (fun r hr => hpost r (by simp [hr]))
      rw [this]
  | cons q rest ih =>
      intro post h hpost
      simp only [List.cons_append, List.filter_cons]
      rw [if_neg (by simpa using h q (by simp))]
      exact ih post (fun r hr => h r (by simp [hr])) hpost

/-- C9: closing a second Case scope whose pattern equals an earlier one of
the same pending switch replaces the earlier body in place: the pattern
keeps its insertion position, exactly one entry for that pattern remains
and it holds the later body, and the switch lowered from this state carries
that map. -/
theorem C9_case_pattern_replace (m : ModuleState) (t : Value) (p : List Char)
    (b1 body : List Stmt) (pre post : List (List Char × List Stmt))
    (hpend : m.stmt_switch_test = some t)
    (hcases : m.stmt_switch_cases = pre ++ (p, b1) :: post)
    (hpre : ∀ q ∈ pre, q.1 ≠ p)
    (hpost : ∀ q ∈ post, q.1 ≠ p)
    (hlen : p.length = t.len)
    (hifc : m.stmt_if_cond = []) :
    ∃ m₁ sc, m.caseEnter t (some p) = .ok (m₁, sc) ∧
      (ModuleState.caseExit { m₁ with statements := body } sc).stmt_switch_cases =
        pre ++ (p, body) :: post ∧
      (pre ++ (p, body) :: post).filter (fun q => q.1 == p) = [(p, body)] ∧
      (ModuleState.caseExit { m₁ with statements := body } sc).flush.statements =
        (ModuleState.caseExit { m₁ with statements := body } sc).statements ++
          [Stmt.switch t (pre ++ (p, body) :: post)] := by
  have hok : m.caseEnter t (some p) = .ok ({ m with statements := [] },
      ⟨p, m.statements⟩) := by
    unfold ModuleState.caseEnter
    simp only []
    rw [if_neg (by simp [hlen]), if_pos hpend]
  refine ⟨_, _, hok, ?_, filter_single_key p body pre post hpre hpost, ?_⟩
  · show odInsert m.stmt_switch_cases p body = pre ++ (p, body) :: post
    rw [hcases]
    exact odInsert_replace p body pre b1 post hpre
  · have hswc : (ModuleState.caseExit { { m with statements := [] } with
        statements := body } ⟨p, m.statements⟩).stmt_switch_cases =
        pre ++ (p, body) :: post := by
      show odInsert m.stmt_switch_cases p body = pre ++ (p, body) :: post
      rw [hcases]
      exact odInsert_replace p body pre b1 post hpre
    have hifc2 : (ModuleState.caseExit { { m with statements := [] } with
        statements := body } ⟨p, m.statements⟩).stmt_if_cond = [] := hifc
    have hpend2 : (ModuleState.caseExit { { m with statements := [] } with
        statements := body } ⟨p, m.statements⟩).stmt_switch_test = some t := hpend
    have := flush_statements_switch
      (ModuleState.caseExit { { m with statements := [] } with
        statements := body } ⟨p, m.statements⟩) t hifc2 hpend2
    rw [this, hswc]

/-- C9 witness: re-closing pattern 01 replaces its body in place while the
entry for 10 and the insertion order are untouched. -/
theorem C9_case_pattern_replace_witness :
    (∃ m₁ sc,
      ({ ModuleState.empty with
         stmt_switch_test := some (Value.signal 0 2),
         stmt_switch_cases :=
           [(['0', '1'], [Stmt.assign [5] (Value.const 1 1)]),
            (['1', '0'], [Stmt.assign [6] (Value.const 1 1)])] } :
         ModuleState).caseEnter (Value.signal 0 2) (some ['0', '1']) =
        .ok (m₁, sc) ∧
      (ModuleState.caseExit
          { m₁ with statements := [Stmt.assign [7] (Value.const 0 1)] }
          sc).stmt_switch_cases =
        [(['0', '1'], [Stmt.assign [7] (Value.const 0 1)]),
         (['1', '0'], [Stmt.assign [6] (Value.const 1 1)])]) := by
  obtain ⟨m₁, sc, h1, h2, _, _⟩ := C9_case_pattern_replace
    { ModuleState.empty with
      stmt_switch_test := some (Value.signal 0 2),
      stmt_switch_cases :=
        [(['0', '1'], [Stmt.assign [5] (Value.const 1 1)]),
         (['1', '0'], [Stmt.assign [6] (Value.const 1 1)])] }
    (Value.signal 0 2) ['0', '1']
    [Stmt.assign [5] (Value.const 1 1)] [Stmt.assign [7] (Value.const 0 1)]
    [] [(['1', '0'], [Stmt.assign [6] (Value.const 1 1)])]
    rfl rfl (by simp) (by decide) (by decide) rfl
  exact ⟨m₁, sc, h1, by simpa using h2⟩

/-- C8 counterexample: assigning a domain handle itself to the attribute
sync of the domain router raises no error (the assignment is silently
ignored), so direct assignment does not fail for every value. -/
theorem C8_counterexample :
    domainsSetattr ⟨PyValue.int 0⟩ "sync"
      (PyValue.domainHandle 0 (some "sync")) = .ok ⟨PyValue.int 0⟩ := rfl

/-- C8 amended: for every attribute other than the private depth slot,
assigning any value that is not itself a domain handle fails loudly with
the usage error; assigning a domain handle is accepted silently but leaves
the router state unchanged, so no domain is ever replaced. -/
theorem C8_setattr_rejects (st : DomainsState) (name : String) (value : PyValue)
    (hn : name ≠ "_depth") :
    ((∀ (dep : Nat) (c : Option String), value ≠ PyValue.domainHandle dep c) →
      domainsSetattr st name value = .error (cannotAssignMsg name)) ∧
    (∀ (dep : Nat) (c : Option String),
      domainsSetattr st name (PyValue.domainHandle dep c) = .ok st) := by
  constructor
  · intro hv
    cases value with
    | int n => simp [domainsSetattr, hn]
    | domainHandle dep c => exact absurd rfl (hv dep c)
    | str s2 => simp [domainsSetattr, hn]
    | obj d2 => simp [domainsSetattr, hn]
  · intro dep c
    simp [domainsSetattr, hn]

/-- C8 amended witness: assigning the string value x to d.sync errors;
assigning a handle to d.sync is silently ignored. -/
theorem C8_setattr_rejects_witness :
    ("sync" ≠ "_depth") ∧
    (domainsSetattr ⟨PyValue.int 0⟩ "sync" (PyValue.str "x") =
      .error (cannotAssignMsg "sync")) ∧
    (∀ (dep : Nat) (c : Option String),
      domainsSetattr ⟨PyValue.int 0⟩ "sync" (PyValue.domainHandle dep c) =
        .ok ⟨PyValue.int 0⟩) := by
  have h := C8_setattr_rejects ⟨PyValue.int 0⟩ "sync" (PyValue.str "x") (by decide)
  exact ⟨by decide, h.1 (fun dep c => by simp), h.2⟩
